import Mathlib

set_option maxHeartbeats 1000000

/-!
Shallow embedding of the DNS-updater core of this repository, translated from
`src/traefik-utils/app/updater.py` (the full variant of the updater: it is the
one with IPv6 resolution, the alias-record guard, the zone-apex guard and
CNAME normalization, which is the core the specification describes).
Python strings are modelled as `String`/`List Char`; the `ipaddress` standard
library checks used by `validate_ipv4`/`validate_ipv6` are translated from
CPython's `ipaddress._ip_int_from_string` / `_parse_octet` / `_parse_hextet`.
Fallible code returns `Option`/`Except`; the boto3/Route53 provider is
modelled both as a response oracle (for error-path claims) and as an explicit
zone state (for the reconciliation-idempotence claim).
-/

namespace Updater

/-- Python whitespace test used by `str.strip()` and `str.split()`; the
bodies and configuration strings this program meets are ASCII, where
`Char.isWhitespace` coincides with Python's notion. -/
def isPySpace (c : Char) : Bool := c.isWhitespace

/-- Python `s.strip()` on the character list of `s`. -/
def pyStripL (l : List Char) : List Char :=
  ((l.dropWhile isPySpace).reverse.dropWhile isPySpace).reverse

/-- Python `s.rstrip(".")`: drop every trailing dot. -/
def rstripDotL (l : List Char) : List Char :=
  (l.reverse.dropWhile (fun c => c = '.')).reverse

/-- Python `s.lower()` on the ASCII names this program handles. -/
def toLowerL (l : List Char) : List Char := l.map Char.toLower

/-- Python `s.split(sep)` for a one-character separator, keeping empty parts. -/
def splitOnCh (sep : Char) : List Char → List (List Char)
  | [] => [[]]
  | c :: rest =>
    if c = sep then [] :: splitOnCh sep rest
    else
      match splitOnCh sep rest with
      | [] => [[c]]
      | g :: gs => (c :: g) :: gs

/-- First whitespace-delimited token of `l`, i.e. Python `l.split()[0]`;
`none` when `split()` is empty and Python would raise `IndexError`. -/
def firstTokenL (l : List Char) : Option (List Char) :=
  match l.dropWhile isPySpace with
  | [] => none
  | c :: cs => some ((c :: cs).takeWhile (fun d => !(isPySpace d)))

/-- Numeric value of a decimal digit list. -/
def digitsVal (l : List Char) : Nat := l.foldl (fun a c => a * 10 + (c.toNat - 48)) 0

/-- CPython `ipaddress._parse_octet`: a dotted-quad part must be 1-3 ASCII
decimal digits, without leading zeros, with value at most 255. -/
def octetOk (p : List Char) : Bool :=
  (!p.isEmpty) && p.all Char.isDigit && p.length ≤ 3 &&
    !(decide (1 < p.length) && p.head? == some '0') && digitsVal p ≤ 255

/-- Dotted-quad IPv4 syntax on a character list: exactly four octets. -/
def v4Ok (l : List Char) : Bool :=
  let ps := splitOnCh '.' l
  ps.length == 4 && ps.all octetOk

/-- `validate_ipv4` from the source: true iff `ipaddress.ip_address(ip)`
yields an `IPv4Address`. -/
def validate_ipv4 (s : String) : Bool := v4Ok s.data

/-- CPython `ipaddress._parse_hextet`: 1-4 hex digits. -/
def hextetOk (p : List Char) : Bool :=
  (!p.isEmpty) && p.length ≤ 4 &&
    p.all (fun c => c.isDigit || ('a' ≤ c && c ≤ 'f') || ('A' ≤ c && c ≤ 'F'))

/-- Embedded-IPv4 expansion step of CPython `ipaddress._ip_int_from_string`:
when the final colon-separated part contains a dot it must parse as a
dotted-quad IPv4 address and stands for two hextets.  The validator never
reads the numeric value of the two replacement hextets, so syntactically
valid placeholder hextets are appended in their place. -/
def expandV4 (parts : List (List Char)) : Option (List (List Char)) :=
  match parts.getLast? with
  | none => some parts
  | some last =>
    if '.' ∈ last then
      if v4Ok last then some (parts.dropLast ++ [['0'], ['0']]) else none
    else some parts

/-- IPv6 textual syntax, translated from CPython
`ipaddress.IPv6Address._ip_int_from_string` (colon groups, at most one `::`
compression with its leading/trailing-colon rules, optional embedded
dotted-quad tail). -/
def v6core (l : List Char) : Bool :=
  let parts0 := splitOnCh ':' l
  if parts0.length < 3 then false
  else
    match expandV4 parts0 with
    | none => false
    | some parts =>
      if 9 < parts.length then false
      else
        let mids := (parts.drop 1).dropLast
        match mids.countP (fun p => p.isEmpty) with
        | 0 =>
          parts.length == 8 && !(parts.head? == some []) &&
            !(parts.getLast? == some []) && parts.all hextetOk
        | 1 =>
          let skip := (mids.findIdx (fun p => p.isEmpty)) + 1
          let headEmpty := parts.head? == some ([] : List Char)
          let lastEmpty := parts.getLast? == some ([] : List Char)
          let hi := if headEmpty then 0 else skip
          let lo := if lastEmpty then 0 else parts.length - skip - 1
          (!headEmpty || skip == 1) &&
            (!lastEmpty || parts.length - skip - 1 == 1) &&
            hi + lo + 1 ≤ 8 && (parts.take hi).all hextetOk &&
            (parts.drop (parts.length - lo)).all hextetOk
        | _ => false

/-- Split at the first percent sign: CPython `ip_str.partition("%")`,
used for the IPv6 scope-id suffix `addr%scope`. -/
def splitPercent : List Char → List Char × Option (List Char)
  | [] => ([], none)
  | c :: rest =>
    if c = '%' then ([], some rest)
    else
      let p := splitPercent rest
      (c :: p.1, p.2)

/-- `validate_ipv6` from the source: true iff `ipaddress.ip_address(ip)`
yields an `IPv6Address` (scope ids after `%` accepted when non-empty and
percent-free, per CPython). -/
def validate_ipv6 (s : String) : Bool :=
  match splitPercent s.data with
  | (addr, none) => v6core addr
  | (addr, some scope) =>
    (!scope.isEmpty) && !(scope.contains '%') && v6core addr

/-- `normalize_fqdn` from the source: `s.strip().rstrip(".").lower()`. -/
def normalize_fqdn (s : String) : String :=
  String.mk (toLowerL (rstripDotL (pyStripL s.data)))

/-- Drop one trailing dot, if present.  This is the specification's reading
of trailing-dot stripping ("stripping the trailing dot"), stated from the
spec's words so it can be compared with the source's `rstrip(".")`. -/
def dropOneDot (l : List Char) : List Char :=
  if l.getLast? = some '.' then l.dropLast else l

/-- The specification's description of the CNAME comparison normalization:
lower-case after stripping the trailing dot.  Stated from the spec's words,
to be compared against the source's `normalize_fqdn`. -/
def specNorm (s : String) : String :=
  String.mk (toLowerL (dropOneDot s.data))

/-- Core of `build_cname_fqdn` on character lists; `none` models the
`ValueError("Empty CNAME entry")`. -/
def buildCore (s d : List Char) : Option (List Char) :=
  let n := rstripDotL (pyStripL s)
  let d := rstripDotL (pyStripL d)
  if n = [] then none
  else if n = d || ('.' :: d).isSuffixOf n then some (n ++ ['.'])
  else if '.' ∈ n then some (n ++ ['.'])
  else some (n ++ ['.'] ++ d ++ ['.'])

/-- `build_cname_fqdn` from the source. -/
def build_cname_fqdn (s d : String) : Option String :=
  (buildCore s.data d.data).map String.mk

/-- Outcome of one `requests.get(url, timeout=3)` against an address-lookup
endpoint: either the call raised (timeout, connection error, ...) or it
returned a response with an `ok` status flag and a text body. -/
inductive FetchResult
  | failure
  | response (ok : Bool) (body : String)
deriving DecidableEq

/-- Python `resp.text.strip().split()[0]` as an `Option`: `none` models the
`IndexError` on an all-whitespace body (caught by the `except` and treated
as endpoint failure). -/
def extractToken (body : String) : Option String :=
  (firstTokenL (pyStripL body.data)).map String.mk

/-- Body of `get_external_ip` (one attempt): walk the endpoint outcomes in
order; a raising endpoint or a non-ok / unparseable / invalid-IPv4 response
advances to the next endpoint; the first response whose first token
validates as IPv4 is returned; exhausting the list raises
`requests.RequestException`, modelled as `.error ()`. -/
def get_external_ip : List FetchResult → Except Unit String
  | [] => .error ()
  | .failure :: rest => get_external_ip rest
  | .response ok body :: rest =>
    if ok then
      match extractToken body with
      | none => get_external_ip rest
      | some ip => if validate_ipv4 ip then .ok ip else get_external_ip rest
    else get_external_ip rest

/-- The tenacity retry wrapper on `get_external_ip`
(`stop_after_attempt(5)`, retry on `requests.RequestException`): each
attempt observes one endpoint-outcome list; a successful attempt returns
immediately; after the fifth failed attempt the error propagates. -/
def retryAttempts : Nat → List (List FetchResult) → Except Unit String
  | _, [] => .error ()
  | 0, _ => .error ()
  | n + 1, os :: rest =>
    match get_external_ip os with
    | .ok ip => .ok ip
    | .error _ => retryAttempts n rest

/-- `get_external_ip` as decorated in the source: at most five attempts. -/
def get_external_ip_retried (worlds : List (List FetchResult)) : Except Unit String :=
  retryAttempts 5 worlds

/-- Body of `get_external_ip6` (one attempt): same walk with the IPv6
validator, but exhaustion returns `None` instead of raising — so the
tenacity wrapper never retries it. -/
def get_external_ip6 : List FetchResult → Option String
  | [] => none
  | .failure :: rest => get_external_ip6 rest
  | .response ok body :: rest =>
    if ok then
      match extractToken body with
      | none => get_external_ip6 rest
      | some ip => if validate_ipv6 ip then some ip else get_external_ip6 rest
    else get_external_ip6 rest

/-- The IPv4 address an endpoint outcome yields, if any: a successful (`ok`)
response whose first whitespace-delimited token validates as IPv4. -/
def yieldsV4 : FetchResult → Option String
  | .response true body =>
    match extractToken body with
    | none => none
    | some ip => if validate_ipv4 ip then some ip else none
  | _ => none

/-- The IPv6 address an endpoint outcome yields, if any. -/
def yieldsV6 : FetchResult → Option String
  | .response true body =>
    match extractToken body with
    | none => none
    | some ip => if validate_ipv6 ip then some ip else none
  | _ => none

/-- Kind of exception a boto3/Route53 call raises: `client` is
`botocore.exceptions.ClientError` (the kind the provider API reports:
authorization failure, rate limiting, record conflict); `other` is any
other exception, e.g. a transport-level connection failure
(`botocore` connection errors are not `ClientError`s). -/
inductive PErr
  | client
  | other
deriving DecidableEq

/-- A Route53 resource record set as this program reads it: its name, type,
whether it is an `AliasTarget` record, its literal values, and its TTL. -/
structure RRSet where
  name : String
  rtype : String
  hasAlias : Bool
  values : List String
  ttl : Nat
deriving DecidableEq

/-- Result of `route53.list_resource_record_sets(...)` with
`StartRecordName=name, StartRecordType=rtype, MaxItems="1"`: an exception of
either kind, or the first record set at-or-after the start position
(`none` when the listing is empty past that point). -/
inductive LookupRes
  | err (e : PErr)
  | found (rec : Option RRSet)
deriving DecidableEq

/-- A provider API call the control loop issues. -/
inductive Call
  | lookupCall (name rtype : String)
  | upsertCall (name rtype value : String)
deriving DecidableEq

/-- Record type a call refers to. -/
def Call.rty : Call → String
  | .lookupCall _ t => t
  | .upsertCall _ t _ => t

/-- True for the `change_resource_record_sets` (write) calls. -/
def Call.isUpsert : Call → Bool
  | .lookupCall _ _ => false
  | .upsertCall _ _ _ => true

/-- A provider behaviour oracle: what each lookup returns and whether each
upsert raises (and with which exception kind). -/
structure Provider where
  lookupF : String → String → LookupRes
  upsertF : String → String → String → Option PErr

/-- Value-comparison core of `record_exists` on the record set the listing
returned (the non-exception path): require exact name and type match, treat
an `AliasTarget` record as existing (skip management), compare CNAME values
through `normalize_fqdn` and other types literally. -/
def record_match (rec : Option RRSet) (name rtype value : String) : Bool :=
  match rec with
  | none => false
  | some r =>
    if r.name = name ∧ r.rtype = rtype then
      if r.hasAlias then true
      else if rtype = "CNAME" then
        r.values.any (fun v => normalize_fqdn v = normalize_fqdn value)
      else r.values.contains value
    else false

/-- `record_exists` from the source: a `ClientError` from the listing is
caught and yields `False`; any other exception propagates (`.error ()`). -/
def record_exists (p : Provider) (name rtype value : String) : Except Unit Bool :=
  match p.lookupF name rtype with
  | .err .client => .ok false
  | .err .other => .error ()
  | .found rec => .ok (record_match rec name rtype value)

/-- `upsert_record` from the source: issues the change; a `ClientError` is
caught and logged, any other exception propagates. -/
def upsert_record (p : Provider) (name rtype value : String) : Except Unit Unit :=
  match p.upsertF name rtype value with
  | none => .ok ()
  | some .client => .ok ()
  | some .other => .error ()

/-- One `if not record_exists(...): upsert_record(...)` step of `main`'s
cycle for a single target record.  Returns the provider calls issued (in
order) and whether an uncaught exception escaped the step. -/
def reconcileStep (p : Provider) (name rtype value : String) : List Call × Bool :=
  match record_exists p name rtype value with
  | .error _ => ([.lookupCall name rtype], true)
  | .ok true => ([.lookupCall name rtype], false)
  | .ok false =>
    match upsert_record p name rtype value with
    | .error _ => ([.lookupCall name rtype, .upsertCall name rtype value], true)
    | .ok _ => ([.lookupCall name rtype, .upsertCall name rtype value], false)

/-- The body of `main`'s per-alias loop iteration: expand the entry
(`ValueError` propagates to the cycle boundary), skip apex CNAMEs before
any provider call, otherwise reconcile. -/
def cnameStep (p : Provider) (domain fqdn entry : String) : List Call × Bool :=
  match build_cname_fqdn entry domain with
  | none => ([], true)
  | some cf =>
    if normalize_fqdn cf = normalize_fqdn domain then ([], false)
    else reconcileStep p cf "CNAME" fqdn

/-- The `for cname in CNAME_TARGETS` loop: an escaping exception aborts the
remaining entries (it is caught only at the cycle boundary). -/
def runTargets (p : Provider) (domain fqdn : String) : List String → List Call × Bool
  | [] => ([], false)
  | e :: rest =>
    let s := cnameStep p domain fqdn e
    if s.2 then (s.1, true)
    else
      let r := runTargets p domain fqdn rest
      (s.1 ++ r.1, r.2)

/-- Python `".".join(groups)` on character lists. -/
def joinDots : List (List Char) → List Char
  | [] => []
  | [g] => g
  | g :: gs => g ++ '.' :: joinDots gs

/-- `DOMAIN = ".".join(A_RECORD_NAME.split(".")[1:])` from `main`. -/
def domainOf (a : String) : String :=
  String.mk (joinDots ((splitOnCh '.' a.data).drop 1))

/-- `fqdn = A_RECORD_NAME if A_RECORD_NAME.endswith(".") else A_RECORD_NAME + "."`. -/
def fqdnOf (a : String) : String :=
  if a.data.getLast? = some '.' then a else String.mk (a.data ++ ['.'])

/-- One iteration of `main`'s `while True` body (the part inside the cycle's
`try`): reconcile the A record from the resolved IPv4, the AAAA record only
when an IPv6 address was resolved, then every configured CNAME target.  A
failed IPv4 resolution raises before any provider call.  Returns the
provider calls issued in order, and whether the cycle ended in the
boundary `except` handler. -/
def cycle (p : Provider) (ip4 : Except Unit String) (ip6 : Option String)
    (aName : String) (cnames : List String) : List Call × Bool :=
  match ip4 with
  | .error _ => ([], true)
  | .ok ip =>
    let fqdn := fqdnOf aName
    let s1 := reconcileStep p fqdn "A" ip
    if s1.2 then (s1.1, true)
    else
      let s2 := match ip6 with
        | some ip6v => reconcileStep p fqdn "AAAA" ip6v
        | none => ([], false)
      if s2.2 then (s1.1 ++ s2.1, true)
      else
        let s3 := runTargets p (domainOf aName) fqdn cnames
        (s1.1 ++ s2.1 ++ s3.1, s3.2)

/-- The provider's record zone, for the stateful reconciliation model:
the set of record sets it stores. -/
abbrev ZoneState := List RRSet

/-- Exact-match lookup in the zone.  Route53's
`list_resource_record_sets(StartRecordName=name, StartRecordType=rtype,
MaxItems="1")` returns the first record at-or-after the start position,
which is the `(name, rtype)` record itself whenever it exists; when it does
not, whatever successor record is returned fails `record_exists`'s exact
name/type equality check, which is observationally the same as returning
nothing — so the model returns `none` in that case. -/
def findExact (st : ZoneState) (name rtype : String) : Option RRSet :=
  st.find? (fun r => decide (r.name = name ∧ r.rtype = rtype))

/-- Route53 `UPSERT` semantics of `upsert_record`: replace the whole
`(name, rtype)` record set with the single desired value (or create it). -/
def upsertState (st : ZoneState) (name rtype value : String) (ttl : Nat) : ZoneState :=
  if st.any (fun r => decide (r.name = name ∧ r.rtype = rtype)) then
    st.map (fun r =>
      if r.name = name ∧ r.rtype = rtype then ⟨name, rtype, false, [value], ttl⟩ else r)
  else st ++ [⟨name, rtype, false, [value], ttl⟩]

/-- The `if not record_exists(...): upsert_record(...)` step run against an
explicit zone state with no provider exceptions: returns the new state and
whether a write was issued. -/
def reconcile (st : ZoneState) (name rtype value : String) (ttl : Nat) :
    ZoneState × Bool :=
  if record_match (findExact st name rtype) name rtype value then (st, false)
  else (upsertState st name rtype value ttl, true)

example : validate_ipv4 "203.0.113.9" = true := by decide
example : validate_ipv4 "203.0.113.256" = false := by decide
example : validate_ipv4 "01.2.3.4" = false := by decide
example : validate_ipv4 "2001:db8::1" = false := by decide
example : validate_ipv6 "2001:db8::1" = true := by decide
example : validate_ipv6 "::" = true := by decide
example : validate_ipv6 "::ffff:1.2.3.4" = true := by decide
example : validate_ipv6 "1.2.3.4" = false := by decide
example : validate_ipv6 "1:2:3:4:5:6:7:8" = true := by decide
example : validate_ipv6 "1:2:3:4:5:6:7" = false := by decide
example : validate_ipv6 "fe80::1%eth0" = true := by decide
example : validate_ipv6 ":1:2:3:4:5:6:7" = false := by decide
example : normalize_fqdn "WWW.Example.com." = "www.example.com" := by decide
example : build_cname_fqdn "api" "example.com" = some "api.example.com." := by decide
example : build_cname_fqdn "api.example.com" "example.com" = some "api.example.com." := by decide
example : build_cname_fqdn "other.org" "example.com" = some "other.org." := by decide
example : build_cname_fqdn "example.com." "example.com" = some "example.com." := by decide
example : build_cname_fqdn "  " "example.com" = none := by decide
example : build_cname_fqdn ". ." "example.com" = some ". ." := by decide

/-! ### Generic list lemmas used by the claim proofs -/

theorem head_dropWhile_false {α} (p : α → Bool) :
    ∀ (l : List α) {c : α}, ((l.dropWhile p).head? = some c) → p c = false := by
  intro l
  induction l with
  | nil => intro c h; simp [List.dropWhile] at h
  | cons a t ih =>
    intro c h
    by_cases hp : p a
    · rw [List.dropWhile_cons_of_pos hp] at h
      exact ih h
    · rw [List.dropWhile_cons_of_neg hp] at h
      simp only [List.head?_cons, Option.some.injEq] at h
      subst h
      exact Bool.eq_false_iff.mpr hp

theorem dropWhile_eq_self_of_head {α} (p : α → Bool) (l : List α)
    (h : ∀ c, l.head? = some c → p c = false) : l.dropWhile p = l := by
  cases l with
  | nil => rfl
  | cons a t =>
    have ha : p a = false := h a rfl
    exact List.dropWhile_cons_of_neg (by simp [ha])

theorem suffix_getLast? {α} {l₁ l₂ : List α} (h : l₁ <:+ l₂) (hne : l₁ ≠ []) :
    l₂.getLast? = l₁.getLast? := by
  rcases h with ⟨t, rfl⟩
  rw [List.getLast?_append]
  rcases hx : l₁.getLast? with _ | a
  · rw [List.getLast?_eq_none_iff] at hx
    exact absurd hx hne
  · rfl

theorem prefix_head? {α} {l₁ l₂ : List α} (h : l₁ <+: l₂) (hne : l₁ ≠ []) :
    l₂.head? = l₁.head? := by
  rcases h with ⟨t, rfl⟩
  cases l₁ with
  | nil => exact absurd rfl hne
  | cons a s => rfl

theorem dropWhile_suffix' {α} (p : α → Bool) (l : List α) : l.dropWhile p <:+ l := by
  induction l with
  | nil => exact List.suffix_refl _
  | cons a t ih =>
    by_cases hp : p a
    · rw [List.dropWhile_cons_of_pos hp]
      exact ih.trans (List.suffix_cons a t)
    · rw [List.dropWhile_cons_of_neg hp]

/-! ### Facts about the Python string helpers -/

theorem rstripDot_prefix_self (l : List Char) : rstripDotL l <+: l := by
  have h : (l.reverse.dropWhile (fun c => decide (c = '.'))) <:+ l.reverse :=
    dropWhile_suffix' _ _
  have h2 := List.reverse_prefix.mpr h
  rw [List.reverse_reverse] at h2
  unfold rstripDotL
  exact h2

theorem rstripDot_getLast (l : List Char) :
    (rstripDotL l).getLast? ≠ some '.' := by
  intro hc
  have h1 : (l.reverse.dropWhile (fun c => c = '.')).head? = some '.' := by
    have := List.head?_reverse (l.reverse.dropWhile (fun c => c = '.'))
    unfold rstripDotL at hc
    rw [← List.getLast?_reverse]
    simpa [rstripDotL] using hc
  have := head_dropWhile_false (fun c => c = '.') l.reverse h1
  simp at this

theorem rstripDot_eq_self {l : List Char} (h : l.getLast? ≠ some '.') :
    rstripDotL l = l := by
  unfold rstripDotL
  rw [dropWhile_eq_self_of_head, List.reverse_reverse]
  intro c hc
  rw [List.head?_reverse] at hc
  simp only [decide_eq_false_iff_not]
  intro hcd
  exact h (hcd ▸ hc)

theorem rstripDot_concat {l : List Char} (h : l.getLast? ≠ some '.') :
    rstripDotL (l ++ ['.']) = l := by
  unfold rstripDotL
  rw [List.reverse_append]
  simp only [List.reverse_cons, List.reverse_nil, List.nil_append, List.singleton_append,
    List.dropWhile_cons]
  simp only [decide_True, if_true]
  rw [dropWhile_eq_self_of_head, List.reverse_reverse]
  intro c hc
  rw [List.head?_reverse] at hc
  simp only [decide_eq_false_iff_not]
  intro hcd
  exact h (hcd ▸ hc)

theorem rstripDot_nil_iff (l : List Char) :
    rstripDotL l = [] ↔ ∀ c ∈ l, c = '.' := by
  unfold rstripDotL
  rw [List.reverse_eq_nil_iff, List.dropWhile_eq_nil_iff]
  constructor
  · intro h c hc
    have := h c (by simpa using hc)
    simpa using this
  · intro h c hc
    simp only [decide_eq_true_eq]
    exact h c (by simpa using hc)

theorem rstripDot_head {l : List Char} (h : rstripDotL l ≠ []) :
    (rstripDotL l).head? = l.head? :=
  (prefix_head? (rstripDot_prefix_self l) h).symm

theorem rstripDot_no_dot {l : List Char} (h : '.' ∉ l) : rstripDotL l = l := by
  apply rstripDot_eq_self
  intro hc
  exact h (List.mem_of_getLast?_eq_some hc)

theorem pyStrip_head {l : List Char} {c : Char}
    (h : (pyStripL l).head? = some c) : isPySpace c = false := by
  unfold pyStripL at h
  rw [List.head?_reverse] at h
  set A := l.dropWhile isPySpace with hA
  set B := A.reverse.dropWhile isPySpace with hB
  have hBne : B ≠ [] := by
    intro hnil
    rw [hnil] at h
    simp at h
  have hsuf : B <:+ A.reverse := dropWhile_suffix' _ _
  have : A.reverse.getLast? = B.getLast? := suffix_getLast? hsuf hBne
  rw [← this, List.getLast?_reverse] at h
  exact head_dropWhile_false isPySpace l h

theorem pyStrip_getLast {l : List Char} {c : Char}
    (h : (pyStripL l).getLast? = some c) : isPySpace c = false := by
  unfold pyStripL at h
  rw [List.getLast?_reverse] at h
  exact head_dropWhile_false isPySpace _ h

theorem pyStrip_eq_self {l : List Char}
    (h1 : ∀ c, l.head? = some c → isPySpace c = false)
    (h2 : ∀ c, l.getLast? = some c → isPySpace c = false) : pyStripL l = l := by
  unfold pyStripL
  rw [dropWhile_eq_self_of_head isPySpace l h1]
  rw [dropWhile_eq_self_of_head isPySpace l.reverse
    (fun c hc => h2 c (by rwa [List.head?_reverse] at hc))]
  exact l.reverse_reverse

/-! ### Resolver lemmas -/

theorem get_external_ip_skip {q : FetchResult} (l : List FetchResult)
    (h : yieldsV4 q = none) : get_external_ip (q :: l) = get_external_ip l := by
  cases q with
  | failure => rfl
  | response ok body =>
    cases ok with
    | false => rfl
    | true =>
      simp only [yieldsV4] at h
      simp only [get_external_ip, if_true]
      cases he : extractToken body with
      | none => simp [he]
      | some t =>
        rw [he] at h
        cases hv : validate_ipv4 t with
        | false => simp [he, hv]
        | true => simp [hv] at h

theorem get_external_ip_hit {o : FetchResult} (l : List FetchResult) {ip : String}
    (h : yieldsV4 o = some ip) : get_external_ip (o :: l) = .ok ip := by
  cases o with
  | failure => simp [yieldsV4] at h
  | response ok body =>
    cases ok with
    | false => simp [yieldsV4] at h
    | true =>
      simp only [yieldsV4] at h
      cases he : extractToken body with
      | none => rw [he] at h; simp at h
      | some t =>
        rw [he] at h
        cases hv : validate_ipv4 t with
        | false => simp [hv] at h
        | true =>
          simp only [hv, if_true] at h
          simp only [Option.some.injEq] at h
          subst h
          simp [get_external_ip, he, hv]

theorem get_external_ip_exhausted (os : List FetchResult)
    (h : ∀ o ∈ os, yieldsV4 o = none) : get_external_ip os = .error () := by
  induction os with
  | nil => rfl
  | cons q rest ih =>
    rw [get_external_ip_skip rest (h q (by simp))]
    exact ih (fun o ho => h o (by simp [ho]))

theorem get_external_ip6_skip {q : FetchResult} (l : List FetchResult)
    (h : yieldsV6 q = none) : get_external_ip6 (q :: l) = get_external_ip6 l := by
  cases q with
  | failure => rfl
  | response ok body =>
    cases ok with
    | false => rfl
    | true =>
      simp only [yieldsV6] at h
      simp only [get_external_ip6, if_true]
      cases he : extractToken body with
      | none => simp [he]
      | some t =>
        rw [he] at h
        cases hv : validate_ipv6 t with
        | false => simp [he, hv]
        | true => simp [hv] at h

theorem get_external_ip6_exhausted (os : List FetchResult)
    (h : ∀ o ∈ os, yieldsV6 o = none) : get_external_ip6 os = none := by
  induction os with
  | nil => rfl
  | cons q rest ih =>
    rw [get_external_ip6_skip rest (h q (by simp))]
    exact ih (fun o ho => h o (by simp [ho]))

theorem retryAttempts_exhausted (n : Nat) (worlds : List (List FetchResult))
    (h : ∀ os ∈ worlds, ∀ o ∈ os, yieldsV4 o = none) :
    retryAttempts n worlds = .error () := by
  induction worlds generalizing n with
  | nil => cases n <;> rfl
  | cons os rest ih =>
    cases n with
    | zero => rfl
    | succ k =>
      simp only [retryAttempts]
      rw [get_external_ip_exhausted os (h os (by simp))]
      exact ih k (fun os2 h2 o ho => h os2 (by simp [h2]) o ho)

theorem retryAttempts_hit (n : Nat) (os : List FetchResult)
    (rest : List (List FetchResult)) (ip : String)
    (h : get_external_ip os = .ok ip) :
    retryAttempts (n + 1) (os :: rest) = .ok ip := by
  simp [retryAttempts, h]

/-! ### Record-type facts about the cycle's provider calls -/

theorem reconcileStep_rty (p : Provider) (name rtype value : String) :
    ∀ c ∈ (reconcileStep p name rtype value).1, c.rty = rtype := by
  intro c hc
  unfold reconcileStep at hc
  split at hc
  · simp at hc; simp [hc, Call.rty]
  · simp at hc; simp [hc, Call.rty]
  · split at hc <;> simp at hc <;> rcases hc with hc | hc <;> simp [hc, Call.rty]

theorem cnameStep_rty (p : Provider) (domain fqdn entry : String) :
    ∀ c ∈ (cnameStep p domain fqdn entry).1, c.rty = "CNAME" := by
  intro c hc
  unfold cnameStep at hc
  split at hc
  · simp at hc
  · split at hc
    · simp at hc
    · exact reconcileStep_rty _ _ _ _ c hc

theorem runTargets_rty (p : Provider) (domain fqdn : String) (cnames : List String) :
    ∀ c ∈ (runTargets p domain fqdn cnames).1, c.rty = "CNAME" := by
  induction cnames with
  | nil => intro c hc; simp [runTargets] at hc
  | cons e rest ih =>
    intro c hc
    unfold runTargets at hc
    simp only at hc
    split at hc
    · exact cnameStep_rty p domain fqdn e c hc
    · rcases List.mem_append.mp hc with hc | hc
      · exact cnameStep_rty p domain fqdn e c hc
      · exact ih c hc

theorem cycle_no_aaaa (p : Provider) (ip4 : Except Unit String) (aName : String)
    (cnames : List String) :
    ∀ c ∈ (cycle p ip4 none aName cnames).1, c.rty ≠ "AAAA" := by
  intro c hc
  rcases ip4 with u | ip
  · simp [cycle] at hc
  · simp only [cycle] at hc
    by_cases h1 : (reconcileStep p (fqdnOf aName) "A" ip).2 = true
    · simp only [h1, if_true] at hc
      have := reconcileStep_rty p (fqdnOf aName) "A" ip c hc
      simp [this]
    · rw [Bool.not_eq_true] at h1
      simp only [h1, Bool.false_eq_true, if_false, List.append_nil, List.nil_append,
        List.mem_append] at hc
      rcases hc with hc | hc
      · have := reconcileStep_rty p (fqdnOf aName) "A" ip c hc
        simp [this]
      · have := runTargets_rty p (domainOf aName) (fqdnOf aName) cnames c hc
        simp [this]

/-- C1.  First-valid-wins resolution: whenever at least one endpoint outcome
yields a successful response whose first whitespace-delimited token is a
syntactically valid IPv4 address, `get_external_ip` returns the token of the
earliest such endpoint, regardless of earlier transport failures, non-ok
responses or invalid / wrong-family tokens; the tenacity retry wrapper
returns the same value (first attempt already succeeds). -/
theorem c1_first_valid_wins (pre post : List FetchResult) (o : FetchResult)
    (ip : String) (hpre : ∀ q ∈ pre, yieldsV4 q = none)
    (ho : yieldsV4 o = some ip) :
    get_external_ip (pre ++ o :: post) = .ok ip ∧
    ∀ rest, get_external_ip_retried ((pre ++ o :: post) :: rest) = .ok ip := by
  have h1 : get_external_ip (pre ++ o :: post) = .ok ip := by
    induction pre with
    | nil => exact get_external_ip_hit post ho
    | cons q qs ih =>
      rw [List.cons_append, get_external_ip_skip _ (hpre q (by simp))]
      exact ih (fun r hr => hpre r (by simp [hr]))
  exact ⟨h1, fun rest => retryAttempts_hit 4 _ rest ip h1⟩

/-- Witness for C1: two failing/invalid endpoints (a transport failure, then
a wrong-family IPv6 answer) before the first endpoint answering a valid
IPv4 literal wrapped in whitespace. -/
theorem c1_witness :
    get_external_ip
        [.failure, .response true "2001:db8::1",
         .response true "  203.0.113.9\nextra"] = .ok "203.0.113.9" :=
  (c1_first_valid_wins [.failure, .response true "2001:db8::1"] []
    (.response true "  203.0.113.9\nextra") "203.0.113.9" (by decide) (by decide)).1

/-- C2.  Asymmetric exhaustion: when no attempt's IPv4 endpoint outcome
yields a valid IPv4 token, the retried `get_external_ip` raises; when no
IPv6 endpoint outcome yields a valid IPv6 token, `get_external_ip6` returns
`None` and the control-loop cycle then issues no AAAA provider call at
all. -/
theorem c2_asymmetric_exhaustion (worlds : List (List FetchResult))
    (out6 : List FetchResult) (p : Provider) (ip4 : Except Unit String)
    (aName : String) (cnames : List String)
    (h4 : ∀ os ∈ worlds, ∀ o ∈ os, yieldsV4 o = none)
    (h6 : ∀ o ∈ out6, yieldsV6 o = none) :
    get_external_ip_retried worlds = .error () ∧
    get_external_ip6 out6 = none ∧
    ∀ c ∈ (cycle p ip4 (get_external_ip6 out6) aName cnames).1, c.rty ≠ "AAAA" := by
  have h6' : get_external_ip6 out6 = none := get_external_ip6_exhausted out6 h6
  refine ⟨retryAttempts_exhausted 5 worlds h4, h6', ?_⟩
  rw [h6']
  exact cycle_no_aaaa p ip4 aName cnames

/-- Witness for C2: one transport failure and one invalid body per family;
the concrete cycle's A-record lookup call is indeed not an AAAA call. -/
theorem c2_witness :
    get_external_ip_retried [[.failure], [.response true "oops"]] = .error () ∧
    get_external_ip6 [.response true "nope", .failure] = none ∧
    (Call.lookupCall "host.example.com." "A").rty ≠ "AAAA" := by
  have h := c2_asymmetric_exhaustion [[.failure], [.response true "oops"]]
    [.response true "nope", .failure]
    ⟨fun _ _ => .found none, fun _ _ _ => none⟩ (.ok "203.0.113.5")
    "host.example.com" ["api"] (by decide) (by decide)
  exact ⟨h.1, h.2.1, h.2.2 (Call.lookupCall "host.example.com." "A") (by decide)⟩

/-- C4.  Alias-record guard: when the exact-match record at `(name, rtype)`
is an `AliasTarget` record, the reconciliation step issues only the lookup
and never an upsert, whatever the desired value is — the alias record is
left untouched. -/
theorem c4_alias_guard (p : Provider) (name rtype value : String) (r : RRSet)
    (hl : p.lookupF name rtype = .found (some r)) (hn : r.name = name)
    (ht : r.rtype = rtype) (ha : r.hasAlias = true) :
    reconcileStep p name rtype value = ([.lookupCall name rtype], false) ∧
    ∀ c ∈ (reconcileStep p name rtype value).1, c.isUpsert = false := by
  have hm : record_match (some r) name rtype value = true := by
    simp [record_match, hn, ht, ha]
  have hre : record_exists p name rtype value = .ok true := by
    simp [record_exists, hl, hm]
  have hstep : reconcileStep p name rtype value = ([.lookupCall name rtype], false) := by
    simp [reconcileStep, hre]
  refine ⟨hstep, ?_⟩
  intro c hc
  rw [hstep] at hc
  simp at hc
  simp [hc, Call.isUpsert]

/-- Witness for C4: a concrete provider holding an alias CNAME record at the
looked-up name; the step issues the lookup only. -/
theorem c4_witness :
    reconcileStep
      ⟨fun _ _ => .found (some ⟨"www.example.com.", "CNAME", true, [], 300⟩),
       fun _ _ _ => none⟩
      "www.example.com." "CNAME" "host.example.com." =
      ([.lookupCall "www.example.com." "CNAME"], false) :=
  (c4_alias_guard
    ⟨fun _ _ => .found (some ⟨"www.example.com.", "CNAME", true, [], 300⟩),
     fun _ _ _ => none⟩
    "www.example.com." "CNAME" "host.example.com."
    ⟨"www.example.com.", "CNAME", true, [], 300⟩ rfl rfl rfl rfl).1

/-- C5.  Apex guard: a configured alias entry whose expanded, normalized
FQDN equals the normalized zone root is skipped before any provider call —
the control loop's per-entry step issues neither a lookup nor an upsert for
it. -/
theorem c5_apex_guard (p : Provider) (domain fqdn entry cf : String)
    (hb : build_cname_fqdn entry domain = some cf)
    (ha : normalize_fqdn cf = normalize_fqdn domain) :
    cnameStep p domain fqdn entry = ([], false) := by
  simp [cnameStep, hb, ha]

/-- Witness for C5: alias entry `example.com` in zone `example.com` — the
step issues zero provider calls. -/
theorem c5_witness :
    cnameStep ⟨fun _ _ => .found none, fun _ _ _ => none⟩
      "example.com" "host.example.com." "example.com" = ([], false) :=
  c5_apex_guard ⟨fun _ _ => .found none, fun _ _ _ => none⟩
    "example.com" "host.example.com." "example.com" "example.com."
    (by decide) (by decide)

/-- C10.  A `ClientError` during the provider lookup makes `record_exists`
return `False` (record treated as absent), and the reconciliation step then
proceeds to issue the upsert even though the existing provider state was
never observed. -/
theorem c10_lookup_clienterror (p : Provider) (name rtype value : String)
    (hl : p.lookupF name rtype = .err .client) :
    record_exists p name rtype value = .ok false ∧
    Call.upsertCall name rtype value ∈ (reconcileStep p name rtype value).1 := by
  have hre : record_exists p name rtype value = .ok false := by
    simp [record_exists, hl]
  refine ⟨hre, ?_⟩
  unfold reconcileStep
  rw [hre]
  rcases hu : upsert_record p name rtype value with u | u <;> simp [hu]

/-- Witness for C10: a provider whose lookup raises a `ClientError` while an
alias record actually exists; the upsert is issued regardless. -/
theorem c10_witness :
    record_exists ⟨fun _ _ => .err .client, fun _ _ _ => none⟩
      "www.example.com." "CNAME" "host.example.com." = .ok false ∧
    Call.upsertCall "www.example.com." "CNAME" "host.example.com." ∈
      (reconcileStep ⟨fun _ _ => .err .client, fun _ _ _ => none⟩
        "www.example.com." "CNAME" "host.example.com.").1 :=
  c10_lookup_clienterror ⟨fun _ _ => .err .client, fun _ _ _ => none⟩
    "www.example.com." "CNAME" "host.example.com." rfl

/-! ### Exception-path lemmas for the cycle -/

theorem record_exists_no_raise (p : Provider) (name rtype value : String)
    (hl : p.lookupF name rtype ≠ .err .other) :
    ∃ b, record_exists p name rtype value = .ok b := by
  unfold record_exists
  rcases hlf : p.lookupF name rtype with e | rec
  · cases e
    · exact ⟨false, rfl⟩
    · exact absurd hlf hl
  · exact ⟨_, rfl⟩

theorem upsert_record_no_raise (p : Provider) (name rtype value : String)
    (hu : p.upsertF name rtype value ≠ some .other) :
    upsert_record p name rtype value = .ok () := by
  unfold upsert_record
  rcases huf : p.upsertF name rtype value with _ | e
  · rfl
  · cases e
    · rfl
    · exact absurd huf hu

theorem reconcileStep_no_raise (p : Provider) (name rtype value : String)
    (hl : p.lookupF name rtype ≠ .err .other)
    (hu : p.upsertF name rtype value ≠ some .other) :
    (reconcileStep p name rtype value).2 = false := by
  obtain ⟨b, hb⟩ := record_exists_no_raise p name rtype value hl
  unfold reconcileStep
  rw [hb]
  cases b
  · rw [upsert_record_no_raise p name rtype value hu]
  · rfl

theorem reconcileStep_has_lookup (p : Provider) (name rtype value : String) :
    Call.lookupCall name rtype ∈ (reconcileStep p name rtype value).1 := by
  unfold reconcileStep
  split
  · simp
  · simp
  · split <;> simp

theorem cnameStep_ok (p : Provider) (domain fqdn entry cf : String)
    (hb : build_cname_fqdn entry domain = some cf)
    (hl : ∀ n t, p.lookupF n t ≠ .err .other)
    (hu : ∀ n t v, p.upsertF n t v ≠ some .other) :
    (cnameStep p domain fqdn entry).2 = false ∧
    (normalize_fqdn cf ≠ normalize_fqdn domain →
      Call.lookupCall cf "CNAME" ∈ (cnameStep p domain fqdn entry).1) := by
  have hstep : cnameStep p domain fqdn entry =
      (if normalize_fqdn cf = normalize_fqdn domain then ([], false)
       else reconcileStep p cf "CNAME" fqdn) := by
    unfold cnameStep
    rw [hb]
  rw [hstep]
  by_cases ha : normalize_fqdn cf = normalize_fqdn domain
  · rw [if_pos ha]
    exact ⟨rfl, fun hn => absurd ha hn⟩
  · rw [if_neg ha]
    exact ⟨reconcileStep_no_raise p cf "CNAME" fqdn (hl _ _) (hu _ _ _),
      fun _ => reconcileStep_has_lookup p cf "CNAME" fqdn⟩

theorem runTargets_ok (p : Provider) (domain fqdn : String) (cnames : List String)
    (hl : ∀ n t, p.lookupF n t ≠ .err .other)
    (hu : ∀ n t v, p.upsertF n t v ≠ some .other)
    (hb : ∀ e ∈ cnames, (build_cname_fqdn e domain).isSome) :
    (runTargets p domain fqdn cnames).2 = false ∧
    ∀ e ∈ cnames, ∀ cf, build_cname_fqdn e domain = some cf →
      normalize_fqdn cf ≠ normalize_fqdn domain →
      Call.lookupCall cf "CNAME" ∈ (runTargets p domain fqdn cnames).1 := by
  induction cnames with
  | nil => exact ⟨rfl, by simp⟩
  | cons e rest ih =>
    obtain ⟨cf0, hcf0⟩ := Option.isSome_iff_exists.mp (hb e (by simp))
    obtain ⟨h1, h2⟩ := cnameStep_ok p domain fqdn e cf0 hcf0 hl hu
    obtain ⟨h3, h4⟩ := ih (fun x hx => hb x (by simp [hx]))
    have hval : runTargets p domain fqdn (e :: rest) =
        ((cnameStep p domain fqdn e).1 ++ (runTargets p domain fqdn rest).1,
         (runTargets p domain fqdn rest).2) := by
      simp only [runTargets, h1, Bool.false_eq_true, if_false]
    rw [hval]
    refine ⟨h3, ?_⟩
    intro x hx cf hcf hne
    rcases List.mem_cons.mp hx with rfl | hx
    · have hcc : cf0 = cf := Option.some.inj (hcf0.symm.trans hcf)
      subst hcc
      exact List.mem_append.mpr (Or.inl (h2 hne))
    · exact List.mem_append.mpr (Or.inr (h4 x hx cf hcf hne))

/-- Counterexample to C6 as stated: a transient (non-`ClientError`) network
failure of the A-record upsert is not contained — it escapes to the cycle
boundary and the remaining CNAME target of the same cycle is never
attempted (no provider call for `api.example.com.` appears in the trace). -/
theorem c6_counterexample :
    cycle ⟨fun _ _ => .found none, fun _ t _ => if t = "A" then some .other else none⟩
        (.ok "203.0.113.5") none "host.example.com" ["api"] =
      ([.lookupCall "host.example.com." "A",
        .upsertCall "host.example.com." "A" "203.0.113.5"], true) ∧
    Call.lookupCall "api.example.com." "CNAME" ∉
      (cycle ⟨fun _ _ => .found none, fun _ t _ => if t = "A" then some .other else none⟩
        (.ok "203.0.113.5") none "host.example.com" ["api"]).1 := by
  decide

/-- C6 (amended).  Per-record failure isolation holds for the provider's own
error reports (`ClientError`: authorization failure, rate limit): when every
provider call fails at worst with a `ClientError`, no exception escapes the
cycle and the loop still attempts reconciliation (beginning with its lookup
call) of every non-apex record target; a non-`ClientError` exception, e.g. a
transport-level network failure, instead aborts the rest of the cycle. -/
theorem c6_client_error_isolation (p : Provider) (ip : String) (ip6 : Option String)
    (aName : String) (cnames : List String)
    (hl : ∀ n t, p.lookupF n t ≠ .err .other)
    (hu : ∀ n t v, p.upsertF n t v ≠ some .other)
    (hb : ∀ e ∈ cnames, (build_cname_fqdn e (domainOf aName)).isSome) :
    (cycle p (.ok ip) ip6 aName cnames).2 = false ∧
    ∀ e ∈ cnames, ∀ cf, build_cname_fqdn e (domainOf aName) = some cf →
      normalize_fqdn cf ≠ normalize_fqdn (domainOf aName) →
      Call.lookupCall cf "CNAME" ∈ (cycle p (.ok ip) ip6 aName cnames).1 := by
  have h1 : (reconcileStep p (fqdnOf aName) "A" ip).2 = false :=
    reconcileStep_no_raise _ _ _ _ (hl _ _) (hu _ _ _)
  obtain ⟨h3, h4⟩ := runTargets_ok p (domainOf aName) (fqdnOf aName) cnames hl hu hb
  cases ip6 with
  | none =>
    have hval : cycle p (.ok ip) none aName cnames =
        ((reconcileStep p (fqdnOf aName) "A" ip).1 ++ [] ++
          (runTargets p (domainOf aName) (fqdnOf aName) cnames).1,
         (runTargets p (domainOf aName) (fqdnOf aName) cnames).2) := by
      unfold cycle
      simp only [h1, Bool.false_eq_true, if_false]
    rw [hval]
    refine ⟨h3, ?_⟩
    intro e he cf hcf hne
    exact List.mem_append.mpr (Or.inr (h4 e he cf hcf hne))
  | some v =>
    have h2 : (reconcileStep p (fqdnOf aName) "AAAA" v).2 = false :=
      reconcileStep_no_raise _ _ _ _ (hl _ _) (hu _ _ _)
    have hval : cycle p (.ok ip) (some v) aName cnames =
        ((reconcileStep p (fqdnOf aName) "A" ip).1 ++
          (reconcileStep p (fqdnOf aName) "AAAA" v).1 ++
          (runTargets p (domainOf aName) (fqdnOf aName) cnames).1,
         (runTargets p (domainOf aName) (fqdnOf aName) cnames).2) := by
      unfold cycle
      simp only [h1, h2, Bool.false_eq_true, if_false]
    rw [hval]
    refine ⟨h3, ?_⟩
    intro e he cf hcf hne
    exact List.mem_append.mpr (Or.inr (h4 e he cf hcf hne))

/-- Witness for the amended C6: every provider call fails with a
`ClientError`, yet the cycle completes without an escaping exception and
the CNAME target is still attempted (its lookup call is in the trace). -/
theorem c6_witness :
    (cycle ⟨fun _ _ => .err .client, fun _ _ _ => some .client⟩
      (.ok "203.0.113.5") none "host.example.com" ["api"]).2 = false ∧
    Call.lookupCall "api.example.com." "CNAME" ∈
      (cycle ⟨fun _ _ => .err .client, fun _ _ _ => some .client⟩
        (.ok "203.0.113.5") none "host.example.com" ["api"]).1 := by
  have h := c6_client_error_isolation
    ⟨fun _ _ => .err .client, fun _ _ _ => some .client⟩
    "203.0.113.5" none "host.example.com" ["api"]
    (by intro n t h; simp at h) (by intro n t v h; simp at h) (by decide)
  exact ⟨h.1, h.2 "api" (by decide) "api.example.com." (by decide) (by decide)⟩

/-! ### Zone-state lemmas for reconciliation idempotence -/

theorem find?_map_replace (name rtype value : String) (ttl : Nat) (st : List RRSet)
    (h : st.any (fun r => decide (r.name = name ∧ r.rtype = rtype)) = true) :
    (st.map (fun r => if r.name = name ∧ r.rtype = rtype then
        (⟨name, rtype, false, [value], ttl⟩ : RRSet) else r)).find?
      (fun r => decide (r.name = name ∧ r.rtype = rtype)) =
      some ⟨name, rtype, false, [value], ttl⟩ := by
  induction st with
  | nil => simp at h
  | cons r rs ih =>
    rw [List.map_cons]
    by_cases hr : r.name = name ∧ r.rtype = rtype
    · rw [if_pos hr, List.find?_cons_of_pos _ (by simp)]
    · rw [if_neg hr, List.find?_cons_of_neg _ (by simpa using hr)]
      apply ih
      have hd : decide (r.name = name ∧ r.rtype = rtype) = false := by simpa using hr
      simp only [List.any_cons, hd, Bool.false_or] at h
      exact h

theorem find?_append_new (p : RRSet → Bool) (new : RRSet) (hp : p new = true)
    (st : List RRSet) (h : st.any p = false) :
    (st ++ [new]).find? p = some new := by
  induction st with
  | nil => simp [List.find?, hp]
  | cons r rs ih =>
    simp only [List.any_cons, Bool.or_eq_false_iff] at h
    simp only [List.cons_append, List.find?_cons, h.1]
    exact ih h.2

theorem findExact_upsertState (st : ZoneState) (name rtype value : String) (ttl : Nat) :
    findExact (upsertState st name rtype value ttl) name rtype =
      some ⟨name, rtype, false, [value], ttl⟩ := by
  unfold upsertState findExact
  by_cases hex : st.any (fun r => decide (r.name = name ∧ r.rtype = rtype)) = true
  · rw [if_pos hex]
    exact find?_map_replace name rtype value ttl st hex
  · rw [if_neg hex]
    exact find?_append_new _ _ (by simp) st (Bool.eq_false_iff.mpr hex)

theorem record_match_self (name rtype value : String) (ttl : Nat) :
    record_match (some ⟨name, rtype, false, [value], ttl⟩) name rtype value = true := by
  by_cases ht : rtype = "CNAME"
  · subst ht
    simp [record_match]
  · simp [record_match, ht]

/-- C8.  Reconciliation is idempotent: whatever the first reconciliation of
`(name, rtype, value, ttl)` did to the zone (a replace-semantics upsert, or
nothing), reconciling the same desired record again against the resulting
unchanged zone state finds the record already matching and issues zero
additional writes. -/
theorem c8_reconcile_idempotent (st : ZoneState) (name rtype value : String) (ttl : Nat) :
    reconcile (reconcile st name rtype value ttl).1 name rtype value ttl =
      ((reconcile st name rtype value ttl).1, false) := by
  by_cases h : record_match (findExact st name rtype) name rtype value = true
  · have h1 : reconcile st name rtype value ttl = (st, false) := by
      unfold reconcile
      rw [if_pos h]
    rw [h1]
    unfold reconcile
    rw [if_pos h]
  · have h1 : reconcile st name rtype value ttl =
        (upsertState st name rtype value ttl, true) := by
      unfold reconcile
      rw [if_neg h]
    rw [h1]
    have hm : record_match
        (findExact (upsertState st name rtype value ttl) name rtype)
        name rtype value = true := by
      rw [findExact_upsertState]
      exact record_match_self name rtype value ttl
    unfold reconcile
    rw [if_pos hm]

/-- C3.  CNAME equality is normalized, A/AAAA equality is literal: on an
exact-match non-alias record, `record_exists` matches a CNAME desired value
iff some existing value has the same `normalize_fqdn` image (lower-casing
and trailing-dot stripping), while for A/AAAA it matches iff the desired
value is literally among the existing values; and on names without
surrounding whitespace and with at most one trailing dot, the source's
`normalize_fqdn` is exactly the claim's normalization (lower-case after
stripping the trailing dot). -/
theorem c3_cname_normalized_a_literal (p : Provider) (name w : String)
    (vs : List String) (ttlv : Nat) :
    (p.lookupF name "CNAME" = .found (some ⟨name, "CNAME", false, vs, ttlv⟩) →
      (record_exists p name "CNAME" w = .ok true ↔
        ∃ v ∈ vs, normalize_fqdn v = normalize_fqdn w)) ∧
    (∀ rt, (rt = "A" ∨ rt = "AAAA") →
      p.lookupF name rt = .found (some ⟨name, rt, false, vs, ttlv⟩) →
      (record_exists p name rt w = .ok true ↔ w ∈ vs)) ∧
    (∀ s : String,
      (∀ c, s.data.head? = some c → isPySpace c = false) →
      (∀ c, s.data.getLast? = some c → isPySpace c = false) →
      (dropOneDot s.data).getLast? ≠ some '.' →
      normalize_fqdn s = specNorm s) := by
  refine ⟨?_, ?_, ?_⟩
  · intro hl
    unfold record_exists
    rw [hl]
    simp [record_match, List.any_eq_true]
  · rintro rt (rfl | rfl) hl <;>
      (unfold record_exists
       rw [hl]
       simp [record_match])
  · intro s h1 h2 h3
    unfold normalize_fqdn specNorm
    rw [pyStrip_eq_self h1 h2]
    rcases hl : s.data.getLast? with _ | c
    · have hnil : s.data = [] := by
        rwa [List.getLast?_eq_none_iff] at hl
      rw [hnil]
      rfl
    · by_cases hc : c = '.'
      · subst hc
        obtain ⟨l', hsplit⟩ := List.getLast?_eq_some_iff.mp hl
        rw [hsplit]
        have hd1 : dropOneDot (l' ++ ['.']) = l' := by
          unfold dropOneDot
          rw [if_pos (by simp), List.dropLast_concat]
        have hlast : l'.getLast? ≠ some '.' := by
          intro hbad
          apply h3
          rw [hsplit, hd1]
          exact hbad
        rw [hd1, rstripDot_concat hlast]
      · rw [rstripDot_eq_self (by rw [hl]; simp [hc])]
        unfold dropOneDot
        rw [if_neg (by rw [hl]; simp [hc])]

/-- Witness for C3: existing CNAME value `WWW.Example.com` matches desired
`www.example.com.`; an A record matches its literal value. -/
theorem c3_witness :
    record_exists
      ⟨fun _ _ => .found (some ⟨"x.example.com.", "CNAME", false,
        ["WWW.Example.com"], 300⟩), fun _ _ _ => none⟩
      "x.example.com." "CNAME" "www.example.com." = .ok true ∧
    record_exists
      ⟨fun _ _ => .found (some ⟨"x.example.com.", "A", false, ["1.2.3.4"], 300⟩),
       fun _ _ _ => none⟩
      "x.example.com." "A" "1.2.3.4" = .ok true := by
  constructor
  · exact ((c3_cname_normalized_a_literal
      ⟨fun _ _ => .found (some ⟨"x.example.com.", "CNAME", false,
        ["WWW.Example.com"], 300⟩), fun _ _ _ => none⟩
      "x.example.com." "www.example.com." ["WWW.Example.com"] 300).1 rfl).mpr
      ⟨"WWW.Example.com", by decide, by decide⟩
  · exact (((c3_cname_normalized_a_literal
      ⟨fun _ _ => .found (some ⟨"x.example.com.", "A", false, ["1.2.3.4"], 300⟩),
       fun _ _ _ => none⟩
      "x.example.com." "1.2.3.4" ["1.2.3.4"] 300).2.1 "A" (Or.inl rfl)) rfl).mpr
      (by decide)

/-! ### Structure of `build_cname_fqdn` -/

theorem buildCore_of_cond (s d : List Char)
    (hne : rstripDotL (pyStripL s) ≠ [])
    (h : rstripDotL (pyStripL s) = rstripDotL (pyStripL d) ∨
         ('.' :: rstripDotL (pyStripL d)) <:+ rstripDotL (pyStripL s) ∨
         '.' ∈ rstripDotL (pyStripL s)) :
    buildCore s d = some (rstripDotL (pyStripL s) ++ ['.']) := by
  simp only [buildCore]
  rw [if_neg hne]
  by_cases hc : (decide (rstripDotL (pyStripL s) = rstripDotL (pyStripL d)) ||
      ('.' :: rstripDotL (pyStripL d)).isSuffixOf (rstripDotL (pyStripL s))) = true
  · rw [if_pos hc]
  · rw [if_neg hc]
    have hm : '.' ∈ rstripDotL (pyStripL s) := by
      rcases h with h | h | h
      · exact absurd (by simp [h]) hc
      · exact absurd (by simp [List.isSuffixOf_iff_suffix, h]) hc
      · exact h
    rw [if_pos hm]

theorem buildCore_of_bare (s d : List Char)
    (hne : rstripDotL (pyStripL s) ≠ [])
    (h1 : rstripDotL (pyStripL s) ≠ rstripDotL (pyStripL d))
    (h2 : ¬ ('.' :: rstripDotL (pyStripL d)) <:+ rstripDotL (pyStripL s))
    (h3 : '.' ∉ rstripDotL (pyStripL s)) :
    buildCore s d = some (rstripDotL (pyStripL s) ++ ['.'] ++
      rstripDotL (pyStripL d) ++ ['.']) := by
  simp only [buildCore]
  rw [if_neg hne]
  rw [if_neg (by
    simp only [Bool.or_eq_true, decide_eq_true_eq, List.isSuffixOf_iff_suffix]
    rintro (h | h)
    · exact h1 h
    · exact h2 h)]
  rw [if_neg h3]

theorem buildCore_none_iff (s d : List Char) :
    buildCore s d = none ↔ rstripDotL (pyStripL s) = [] := by
  simp only [buildCore]
  by_cases hne : rstripDotL (pyStripL s) = []
  · rw [if_pos hne]
    simp [hne]
  · rw [if_neg hne]
    constructor
    · intro h
      by_cases hc : (decide (rstripDotL (pyStripL s) = rstripDotL (pyStripL d)) ||
          ('.' :: rstripDotL (pyStripL d)).isSuffixOf (rstripDotL (pyStripL s))) = true
      · rw [if_pos hc] at h
        exact Option.noConfusion h
      · rw [if_neg hc] at h
        by_cases hm : '.' ∈ rstripDotL (pyStripL s)
        · rw [if_pos hm] at h
          exact Option.noConfusion h
        · rw [if_neg hm] at h
          exact Option.noConfusion h
    · intro h
      exact absurd h hne

/-- Counterexample to C7 as stated: the raw entry `api.` contains a dot and
does not end in the domain `example.com`, so the claim's third clause would
leave it unchanged up to trailing-dot normalization (`api.`); but the code
strips trailing dots before classifying, finds the bare label `api`, and
expands it to `api.example.com.`. -/
theorem c7_counterexample :
    ("api." : String).data.contains '.' = true ∧
    ('.' :: ("example.com" : String).data).isSuffixOf ("api." : String).data = false ∧
    build_cname_fqdn "api." "example.com" = some "api.example.com." := by
  decide

/-- C7 (amended).  CNAME name-expansion classifies the entry only after
stripping trailing dots: for a pre-stripped entry `x` and a clean, non-empty
domain, write `n` for `x` with trailing dots removed.  If `n` has no dot and
differs from the domain, the result is `<n>.<domain>.` (so a raw entry such
as `api.` still expands); if `n` equals the domain, ends in the domain, or
contains a dot otherwise, the result is `n` with exactly one trailing
dot. -/
theorem c7_name_expansion (x d : String)
    (hx : pyStripL x.data = x.data)
    (hd1 : pyStripL d.data = d.data) (hd2 : rstripDotL d.data = d.data)
    (hd3 : d.data ≠ []) :
    ('.' ∉ rstripDotL x.data → rstripDotL x.data ≠ [] →
      rstripDotL x.data ≠ d.data →
      build_cname_fqdn x d =
        some (String.mk (rstripDotL x.data ++ '.' :: d.data ++ ['.']))) ∧
    ((rstripDotL x.data = d.data ∨ ('.' :: d.data) <:+ rstripDotL x.data ∨
        '.' ∈ rstripDotL x.data) →
      build_cname_fqdn x d = some (String.mk (rstripDotL x.data ++ ['.']))) := by
  have e2 : rstripDotL (pyStripL d.data) = d.data := by rw [hd1, hd2]
  constructor
  · intro hdot hne hneq
    have e1 : rstripDotL (pyStripL x.data) = rstripDotL x.data := by rw [hx]
    have hb := buildCore_of_bare x.data d.data
      (by rw [e1]; exact hne)
      (by rw [e1, e2]; exact hneq)
      (by rw [e1, e2]; intro hs; exact hdot (hs.subset (by simp)))
      (by rw [e1]; exact hdot)
    rw [e1, e2] at hb
    unfold build_cname_fqdn
    rw [hb]
    simp
  · intro h
    have e1 : rstripDotL (pyStripL x.data) = rstripDotL x.data := by rw [hx]
    have hne : rstripDotL x.data ≠ [] := by
      rcases h with h | h | h
      · rw [h]; exact hd3
      · intro hnil
        rw [hnil] at h
        exact absurd (List.suffix_nil.mp h) (by simp)
      · exact List.ne_nil_of_mem h
    have hb := buildCore_of_cond x.data d.data (by rw [e1]; exact hne)
      (by rw [e1, e2]; exact h)
    rw [e1] at hb
    unfold build_cname_fqdn
    rw [hb]
    rfl

/-- Witness for the amended C7: with domain `example.com`, alias `api`
expands to `api.example.com.`, alias `api.example.com` normalizes to
`api.example.com.`, alias `other.org` is only trailing-dot normalized, and
the dot-stripped-before-classification entry `api.` also expands. -/
theorem c7_witness :
    build_cname_fqdn "api" "example.com" = some "api.example.com." ∧
    build_cname_fqdn "api.example.com" "example.com" = some "api.example.com." ∧
    build_cname_fqdn "other.org" "example.com" = some "other.org." ∧
    build_cname_fqdn "api." "example.com" = some "api.example.com." := by
  refine ⟨?_, ?_, ?_, ?_⟩
  · have h := (c7_name_expansion "api" "example.com"
      (by decide) (by decide) (by decide) (by decide)).1
      (by decide) (by decide) (by decide)
    rw [h]
    decide
  · have h := (c7_name_expansion "api.example.com" "example.com"
      (by decide) (by decide) (by decide) (by decide)).2
      (Or.inr (Or.inr (by decide)))
    rw [h]
    decide
  · have h := (c7_name_expansion "other.org" "example.com"
      (by decide) (by decide) (by decide) (by decide)).2
      (Or.inr (Or.inr (by decide)))
    rw [h]
    decide
  · have h := (c7_name_expansion "api." "example.com"
      (by decide) (by decide) (by decide) (by decide)).1
      (by decide) (by decide) (by decide)
    rw [h]
    decide

theorem buildCore_cases (s d : List Char) (rl : List Char)
    (h : buildCore s d = some rl) :
    rstripDotL (pyStripL s) ≠ [] ∧
    ((rl = rstripDotL (pyStripL s) ++ ['.'] ∧
       (rstripDotL (pyStripL s) = rstripDotL (pyStripL d) ∨
        ('.' :: rstripDotL (pyStripL d)) <:+ rstripDotL (pyStripL s) ∨
        '.' ∈ rstripDotL (pyStripL s))) ∨
     (rl = rstripDotL (pyStripL s) ++ ['.'] ++ rstripDotL (pyStripL d) ++ ['.'] ∧
       '.' ∉ rstripDotL (pyStripL s))) := by
  simp only [buildCore] at h
  by_cases hne : rstripDotL (pyStripL s) = []
  · rw [if_pos hne] at h
    exact Option.noConfusion h
  · refine ⟨hne, ?_⟩
    rw [if_neg hne] at h
    by_cases hc : (decide (rstripDotL (pyStripL s) = rstripDotL (pyStripL d)) ||
        ('.' :: rstripDotL (pyStripL d)).isSuffixOf (rstripDotL (pyStripL s))) = true
    · rw [if_pos hc] at h
      left
      refine ⟨(Option.some.inj h).symm, ?_⟩
      simp only [Bool.or_eq_true, decide_eq_true_eq, List.isSuffixOf_iff_suffix] at hc
      rcases hc with hc | hc
      · exact Or.inl hc
      · exact Or.inr (Or.inl hc)
    · rw [if_neg hc] at h
      by_cases hm : '.' ∈ rstripDotL (pyStripL s)
      · rw [if_pos hm] at h
        exact Or.inl ⟨(Option.some.inj h).symm, Or.inr (Or.inr hm)⟩
      · rw [if_neg hm] at h
        exact Or.inr ⟨(Option.some.inj h).symm, hm⟩

theorem build_fixed (m : List Char) (d : String) (hm : m ≠ [])
    (hhead : ∀ c, m.head? = some c → isPySpace c = false)
    (hlast : m.getLast? ≠ some '.')
    (hcond : m = rstripDotL (pyStripL d.data) ∨
       ('.' :: rstripDotL (pyStripL d.data)) <:+ m ∨ '.' ∈ m) :
    build_cname_fqdn (String.mk (m ++ ['.'])) d = some (String.mk (m ++ ['.'])) := by
  have hs1 : pyStripL (m ++ ['.']) = m ++ ['.'] := by
    apply pyStrip_eq_self
    · intro c hc
      rw [List.head?_append] at hc
      rcases hh : m.head? with _ | a
      · rw [List.head?_eq_none_iff] at hh
        exact absurd hh hm
      · rw [hh] at hc
        simp only [Option.or_some, Option.some.injEq] at hc
        exact hc ▸ hhead a hh
    · intro c hc
      rw [List.getLast?_concat] at hc
      cases hc
      decide
  have hkey : rstripDotL (pyStripL (m ++ ['.'])) = m := by
    rw [hs1]
    exact rstripDot_concat hlast
  have hb := buildCore_of_cond (m ++ ['.']) d.data
    (by rw [hkey]; exact hm) (by rw [hkey]; exact hcond)
  rw [hkey] at hb
  unfold build_cname_fqdn
  rw [show (String.mk (m ++ ['.'])).data = m ++ ['.'] from rfl, hb]
  rfl

/-- C9 (amended).  For every domain that is non-empty after stripping
whitespace and trailing dots, every successful `build_cname_fqdn` result
ends in exactly one trailing dot, and re-applying `build_cname_fqdn` with
the same domain to its own output returns the output unchanged; it raises
exactly when the entry's whitespace-stripped form consists only of dots. -/
theorem c9_normalization (s d : String)
    (hd : rstripDotL (pyStripL d.data) ≠ []) :
    (∀ r : String, build_cname_fqdn s d = some r →
      (r.data.getLast? = some '.' ∧ r.data.dropLast.getLast? ≠ some '.') ∧
      build_cname_fqdn r d = some r) ∧
    (build_cname_fqdn s d = none ↔ ∀ c ∈ pyStripL s.data, c = '.') := by
  constructor
  · intro r hr
    unfold build_cname_fqdn at hr
    rcases hbc : buildCore s.data d.data with _ | rl
    · rw [hbc] at hr
      exact Option.noConfusion hr
    · rw [hbc] at hr
      simp only [Option.map_some'] at hr
      have hr' : String.mk rl = r := Option.some.inj hr
      subst hr'
      obtain ⟨hne, hcase⟩ := buildCore_cases s.data d.data rl hbc
      have hhead : ∀ c, (rstripDotL (pyStripL s.data)).head? = some c →
          isPySpace c = false := by
        intro c hc
        rw [rstripDot_head hne] at hc
        exact pyStrip_head hc
      rcases hcase with ⟨hrl, hcond⟩ | ⟨hrl, hnd⟩
      · subst hrl
        refine ⟨⟨List.getLast?_concat _, ?_⟩, ?_⟩
        · rw [List.dropLast_concat]
          exact rstripDot_getLast _
        · exact build_fixed _ d hne hhead (rstripDot_getLast _) hcond
      · subst hrl
        have hmne : rstripDotL (pyStripL s.data) ++ ['.'] ++
            rstripDotL (pyStripL d.data) ≠ [] := by
          simp
        have hmlast : (rstripDotL (pyStripL s.data) ++ ['.'] ++
            rstripDotL (pyStripL d.data)).getLast? ≠ some '.' := by
          rw [suffix_getLast? ⟨rstripDotL (pyStripL s.data) ++ ['.'], rfl⟩ hd]
          exact rstripDot_getLast _
        have hmhead : ∀ c, (rstripDotL (pyStripL s.data) ++ ['.'] ++
            rstripDotL (pyStripL d.data)).head? = some c → isPySpace c = false := by
          intro c hc
          rw [prefix_head? ⟨['.'] ++ rstripDotL (pyStripL d.data),
            by rw [List.append_assoc]⟩ hne] at hc
          exact hhead c hc
        refine ⟨⟨List.getLast?_concat _, ?_⟩, ?_⟩
        · rw [List.dropLast_concat]
          exact hmlast
        · exact build_fixed _ d hmne hmhead hmlast
            (Or.inr (Or.inl ⟨rstripDotL (pyStripL s.data), by simp⟩))
  · constructor
    · intro hnone
      unfold build_cname_fqdn at hnone
      have hbc : buildCore s.data d.data = none := by
        rcases hx : buildCore s.data d.data with _ | rl
        · rfl
        · rw [hx] at hnone
          simp at hnone
      exact (rstripDot_nil_iff _).mp ((buildCore_none_iff _ _).mp hbc)
    · intro hall
      unfold build_cname_fqdn
      rw [(buildCore_none_iff s.data d.data).mpr ((rstripDot_nil_iff _).mpr hall)]
      rfl

/-- Counterexample to C9 as stated: the entry `". ."` (dot, space, dot)
consists only of whitespace and dots, yet `build_cname_fqdn` does not raise
on it — it returns `". ."` unchanged. -/
theorem c9_counterexample :
    (". ." : String).data.all (fun c => c == '.' || isPySpace c) = true ∧
    build_cname_fqdn ". ." "example.com" = some ". ." := by
  decide

/-- Witness for the amended C9 at the entry `". ."`: the result ends in
exactly one trailing dot and re-applying the function fixes it. -/
theorem c9_witness :
    ((". ." : String).data.getLast? = some '.' ∧
      (". ." : String).data.dropLast.getLast? ≠ some '.') ∧
    build_cname_fqdn ". ." "example.com" = some ". ." :=
  (c9_normalization ". ." "example.com" (by decide)).1 ". ." (by decide)

end Updater
